import Mathlib

/-!
Verification of the chunked-upload client and bulk-operation orchestration of
the cloudflare-stream-manager application.

The definitions below are shallow embeddings of the TypeScript source:
`src/services/tusUpload.ts` (chunk-size computation, retry schedule, response
handling, metadata/header construction), the bulk upload component
(`startBulkUpload`, `uploadSingleItem`, `handleLocalUpload`, queue mutation
and its UI gating), and `src/components/Videos/VideoList.tsx`
(`handleBulkDeleteConfirm`).  JavaScript machine numbers are modelled as `Nat`
(all sizes involved are far below 2^53, where JS doubles are exact; the chunk
divisor is 2^18, so the division in `Math.round(chunkSize / chunkDivisor)` is
exact in floating point and agrees with the rational value modelled here).
JavaScript string truthiness (`if (s)`) is modelled by `jsTruthy`.
-/

namespace StreamManager

/-! ## Chunk-size computation (TusUploadService.uploadFile, lines 12-22) -/

def minChunkSize : Nat := 5242880

def chunkDivisor : Nat := 262144

def defaultChunkSize : Nat := 52428800

/-- JavaScript `options.chunkSize || 52428800`: an absent or zero requested
size falls back to the default. -/
def requestedOrDefault : Option Nat → Nat
  | none => defaultChunkSize
  | some v => if v = 0 then defaultChunkSize else v

/-- Lines 14-22 of tusUpload.ts: take the requested size (or the default),
raise it to `minChunkSize` if below, then round to the nearest multiple of
`chunkDivisor` (`Math.round(chunkSize / chunkDivisor) * chunkDivisor`;
round-half-up coincides with `(c + d/2) / d` in exact arithmetic). -/
def normalizeChunkSize (requested : Option Nat) : Nat :=
  let c0 := requestedOrDefault requested
  let c1 := if c0 < minChunkSize then minChunkSize else c0
  ((c1 + chunkDivisor / 2) / chunkDivisor) * chunkDivisor

/-! ## Retry schedule (tusUpload.ts line 51) -/

def retryDelays : List Nat := [0, 3000, 5000, 10000, 20000]

/-- Modelled from the spec: the retry driver itself lives in the external
tus-js-client library (not in this repository); per the spec, on a transient
transport failure the session consumes the next slot of the backoff schedule
and retries, and exhausting the schedule is a terminal failure for the
session.  `failures` counts the leading transient failures the transport
produces before it would succeed. -/
def sessionCompletes : Nat → List Nat → Bool
  | 0, _ => true
  | _ + 1, [] => false
  | f + 1, _ :: rest => sessionCompletes f rest

/-! ## JavaScript string truthiness -/

/-- JavaScript `if (x)` for `x : string | null | undefined`: `null`,
`undefined` and the empty string are falsy. -/
def jsTruthy : Option String → Bool
  | none => false
  | some s => !(s == "")

/-! ## Video-id capture from protocol responses (onAfterResponse, lines 113-157) -/

/-- JavaScript `s.trim()`: strip leading and trailing whitespace (executable
model of the built-in). -/
def jsTrim (s : String) : String :=
  String.mk (((s.data.dropWhile Char.isWhitespace).reverse.dropWhile
    Char.isWhitespace).reverse)

/-- Lowercase-hexadecimal character class `[a-f0-9]` of the regex. -/
def isLowerHexDigit (c : Char) : Bool :=
  (('a' ≤ c) && (c ≤ 'f')) || (('0' ≤ c) && (c ≤ '9'))

/-- The regex match `location.match(re)` for the anchored pattern
"slash, then 32 characters from [a-f0-9], then end of string": it succeeds
exactly when the string is at least 33 characters long, its last 32
characters are lowercase hex, and the character before them is a slash;
the captured group is those last 32 characters. -/
def extractLocationId (loc : String) : Option String :=
  if 33 ≤ loc.data.length then
    if (loc.data[loc.data.length - 33]? == some '/') &&
        (loc.data.drop (loc.data.length - 32)).all isLowerHexDigit then
      some (String.mk (loc.data.drop (loc.data.length - 32)))
    else none
  else none

structure SessionState where
  videoId : Option String
  uploadUrl : Option String
deriving DecidableEq

/-- The two response headers inspected by `onAfterResponse`. -/
structure TusResponse where
  mediaId : Option String
  location : Option String
deriving DecidableEq

/-- Lines 121-143 of tusUpload.ts: a truthy `stream-media-id` header always
(re)sets `videoId`; a truthy `Location` header sets `uploadUrl`, and its
trailing path segment is parsed into `videoId` only when `videoId` is still
unset after the header check. -/
def onAfterResponse (s : SessionState) (r : TusResponse) : SessionState :=
  let s1 := if jsTruthy r.mediaId then { s with videoId := r.mediaId } else s
  match r.location with
  | some loc =>
    if loc == "" then s1
    else
      let s2 := { s1 with uploadUrl := some loc }
      if jsTruthy s2.videoId then s2
      else
        match extractLocationId loc with
        | some v => { s2 with videoId := some v }
        | none => s2
  | none => s1

/-! ## Metadata / header construction (tusUpload.ts lines 26-41 and the
caller handleLocalUpload, part_002 lines 796-805) -/

structure TusFile where
  name : String
  mimeType : String
deriving DecidableEq

def lookupMeta (m : List (String × String)) (k : String) : Option String :=
  (m.find? (fun p => p.1 == k)).map Prod.snd

/-- The caller-supplied `metadata` record built by `handleLocalUpload`
(part_002 lines 796-805): name, filename, filetype, the bearer credential
under the `authorization` key, and the watermark id when present and
non-blank. -/
def callerMetadata (file : TusFile) (apiToken : String) (watermarkId : Option String) :
    List (String × String) :=
  [("name", file.name), ("filename", file.name), ("filetype", file.mimeType),
   ("authorization", "Bearer " ++ apiToken)] ++
  (match watermarkId with
   | some w => if !(jsTrim w == "") then [("watermark", w)] else []
   | none => [])

/-- Lines 27-35 of tusUpload.ts: the protocol metadata holds `name`,
`filetype`, and `watermark` when the caller supplied a truthy one. -/
def buildTusMetadata (file : TusFile) (optMeta : List (String × String)) :
    List (String × String) :=
  [("name", file.name), ("filetype", file.mimeType)] ++
  (match lookupMeta optMeta "watermark" with
   | some w => if !(w == "") then [("watermark", w)] else []
   | none => [])

/-- Lines 38-41 of tusUpload.ts: the transport headers hold only the
`Authorization` entry, taken from the caller-supplied metadata record. -/
def buildTusHeaders (optMeta : List (String × String)) : List (String × String) :=
  match lookupMeta optMeta "authorization" with
  | some a => if !(a == "") then [("Authorization", a)] else []
  | none => []

/-! ## Bulk upload queue state (part_002 lines 595-786) -/

inductive ItemStatus where
  | idle
  | uploading
  | success
  | error
deriving DecidableEq

inductive GlobalStatus where
  | idle
  | uploading
  | completed
deriving DecidableEq

structure UploadProgress where
  bytesUploaded : Nat
  bytesTotal : Nat
  percentage : Nat
deriving DecidableEq

structure UploadItem where
  id : String
  isFile : Bool
  progress : Option UploadProgress
  status : ItemStatus
  error : Option String
  videoId : Option String
  name : String
deriving DecidableEq

structure UploadState where
  items : List UploadItem
  globalStatus : GlobalStatus
deriving DecidableEq

/-- The `setUploadState(prev => ... items.map(i => i.id === itemId ? f i : i))`
pattern used throughout the component: update the item(s) with the given id. -/
def updateItem (items : List UploadItem) (i : String) (f : UploadItem → UploadItem) :
    List UploadItem :=
  items.map (fun it => if it.id == i then f it else it)

/-- Result of one item's network work, as observed by `uploadSingleItem`:
either the item reached success (with the final video id recorded by
`verifyUploadCompletion`) or some error was thrown and caught, with the
caught message. -/
inductive ItemOutcome where
  | ok (videoId : String)
  | fail (msg : String)
deriving DecidableEq

def noVideoIdMsg : String := "Upload completed but no video ID was returned"

def applyUploading (it : UploadItem) : UploadItem :=
  { it with status := ItemStatus.uploading, error := none }

def applySuccess (vid : String) (it : UploadItem) : UploadItem :=
  { it with status := ItemStatus.success, videoId := some vid }

def applyError (msg : String) (it : UploadItem) : UploadItem :=
  { it with status := ItemStatus.error, error := some msg }

/-- part_002 lines 759-786: `uploadSingleItem` first marks the item
`uploading` (clearing any previous error), then either the upload pipeline
finishes and `verifyUploadCompletion` marks it `success` with its video id,
or the `catch` block marks it `error` with the caught message.  The
try/catch guarantees the function always returns an updated state and never
throws. -/
def uploadSingleItem (items : List UploadItem) (i : String) (o : ItemOutcome) :
    List UploadItem :=
  let items1 := updateItem items i applyUploading
  match o with
  | ItemOutcome.ok vid => updateItem items1 i (applySuccess vid)
  | ItemOutcome.fail msg => updateItem items1 i (applyError msg)

/-- The per-item transformation realized by `uploadSingleItem` on the item it
drives. -/
def finalizeItem (o : ItemOutcome) (it : UploadItem) : UploadItem :=
  match o with
  | ItemOutcome.ok vid => applySuccess vid (applyUploading it)
  | ItemOutcome.fail msg => applyError msg (applyUploading it)

/-- part_002 lines 832-836 together with the catch in `uploadSingleItem`:
after the TUS session resolves, a truthy video id leads to verification and
success (`verifyUploadCompletion` marks the item successful even when the
verification fetch fails), while a falsy one throws the distinct
no-video-id error, which the catch records. -/
def localUploadOutcome (sessionVideoId : Option String) : ItemOutcome :=
  if jsTruthy sessionVideoId then ItemOutcome.ok (sessionVideoId.getD "")
  else ItemOutcome.fail noVideoIdMsg

/-! ## Session promise settlement (tusUpload.ts lines 58-101) -/

/-- Terminal event of one TUS session: the library either reports success
(the promise resolves with the captured video id, possibly null) or a
terminal transport failure (retries exhausted, or a 4xx rejection). -/
inductive TusTerminal where
  | success (videoId : Option String)
  | failure (msg : String)
deriving DecidableEq

/-- How the promise returned by `TusUploadService.uploadFile` settles. -/
inductive SessionSettlement where
  | resolved (videoId : Option String)
  | rejected (msg : String)
  | neverSettles
deriving DecidableEq

/-- tusUpload.ts lines 58-80 and 91-101: `onSuccess` resolves with the
captured video id; `onError` invokes the caller-supplied `options.onError`
callback first and only then calls `reject(error)` (line 79).  A callback
that itself throws aborts the handler before the reject runs — the throw
escapes into the tus library's callback frame, not into the awaiting code —
so the promise never settles. -/
def uploadFileSettlement (onErrorThrows : Bool) : TusTerminal → SessionSettlement
  | TusTerminal.success vid => SessionSettlement.resolved vid
  | TusTerminal.failure msg =>
    if onErrorThrows then SessionSettlement.neverSettles
    else SessionSettlement.rejected msg

/-- part_002 line 826: the bulk variant's `onError` callback rethrows the
error (`throw error`), unlike the single-upload variant at lines 264-271,
which only records state. -/
def bulkOnErrorThrows : Bool := true

/-- How one dispatched bulk item's `uploadSingleItem` call ends: either its
awaited pipeline settles and the catch-completed outcome is recorded, or an
inner await never returns and the item's task is stuck forever. -/
inductive ItemSettle where
  | settled (o : ItemOutcome)
  | stalled
deriving DecidableEq

def ItemSettle.isSettled : ItemSettle → Bool
  | ItemSettle.settled _ => true
  | ItemSettle.stalled => false

/-- part_002 lines 809-837 under the settlement semantics: a resolved
session feeds `handleLocalUpload`'s own id check (`localUploadOutcome`); a
rejected session is caught by `uploadSingleItem` with the rejection message;
a never-settling session leaves the item's await hanging — the catch never
runs. -/
def localItemSettle (t : TusTerminal) : ItemSettle :=
  match uploadFileSettlement bulkOnErrorThrows t with
  | SessionSettlement.resolved vid => ItemSettle.settled (localUploadOutcome vid)
  | SessionSettlement.rejected msg => ItemSettle.settled (ItemOutcome.fail msg)
  | SessionSettlement.neverSettles => ItemSettle.stalled

/-- The cumulative effect on one item of the sequence of dispatched updates
(used to characterize `startBulkUpload`). -/
def runSeq (outcome : String → ItemOutcome) (l : List UploadItem) (it : UploadItem) :
    UploadItem :=
  l.foldl (fun v d => if v.id == d.id then finalizeItem (outcome d.id) v else v) it

/-- part_002 lines 733-757 restricted to settled executions (every
dispatched item's awaited pipeline settles, so `uploadSingleItem` returns
for each of them): the items dispatched are those whose status is `idle`
when the run starts (an empty selection returns without touching the
state); each dispatched item is driven by `uploadSingleItem` with its own
outcome, and such a run ends with `globalStatus = completed` (both the
normal path and the catch set it).  The per-item state updates are
linearized here; each `uploadSingleItem` touches only items carrying its
own id, so the interleaving of the batched updates does not affect the
final state (the batch structure and the dispatch barrier are modelled by
`runTrace`, and the general semantics in which an item's await may never
return is `startBulkUploadFull`). -/
def startBulkUpload (s : UploadState) (outcome : String → ItemOutcome) : UploadState :=
  let toUpload := s.items.filter (fun it => it.status == ItemStatus.idle)
  if toUpload.isEmpty then s
  else
    { items := toUpload.foldl (fun acc it => uploadSingleItem acc it.id (outcome it.id)) s.items,
      globalStatus := GlobalStatus.completed }

/-- part_002 lines 741-745 applied to the dispatched items themselves:
`for (let i = 0; i < n; i += 3) batches.push(slice(i, i + 3))`. -/
def mkItemBatches : List UploadItem → List (List UploadItem)
  | [] => []
  | [a] => [[a]]
  | [a, b] => [[a, b]]
  | a :: b :: c :: rest => [a, b, c] :: mkItemBatches rest

/-- The `for (const batch of batches) await Promise.all(...)` loop of
part_002 lines 748-750 under the settlement semantics: every item of the
current batch is dispatched (marked `uploading`); a settled item's outcome
is recorded by `uploadSingleItem`, a stalled item keeps its `uploading`
mark forever.  If every item of the batch settles, `Promise.all` resolves
and the next batch runs; if any item stalls, the `await` never returns —
no later batch is dispatched and `globalStatus` (set to `uploading` at run
start) is never updated again. -/
def runBatches :
    List (List UploadItem) → (String → ItemSettle) → List UploadItem →
    List UploadItem × GlobalStatus
  | [], _, items => (items, GlobalStatus.completed)
  | batch :: rest, settle, items =>
    let items1 := batch.foldl (fun acc it =>
      match settle it.id with
      | ItemSettle.settled o => uploadSingleItem acc it.id o
      | ItemSettle.stalled => updateItem acc it.id applyUploading) items
    if batch.all (fun it => (settle it.id).isSettled) then
      runBatches rest settle items1
    else (items1, GlobalStatus.uploading)

/-- part_002 lines 733-757 without the settled-execution restriction: the
idle snapshot is batched and run through `runBatches`; the resulting
`globalStatus` is `completed` only when every dispatched item settles. -/
def startBulkUploadFull (s : UploadState) (settle : String → ItemSettle) : UploadState :=
  let toUpload := s.items.filter (fun it => it.status == ItemStatus.idle)
  if toUpload.isEmpty then s
  else
    { items := (runBatches (mkItemBatches toUpload) settle s.items).1,
      globalStatus := (runBatches (mkItemBatches toUpload) settle s.items).2 }

/-! ## Batch partition and dispatch trace (part_002 lines 739-750) -/

def concurrentLimit : Nat := 3

/-- part_002 lines 741-745: `for (let i = 0; i < n; i += 3) batches.push(slice(i, i + 3))`. -/
def mkBatches : List Nat → List (List Nat)
  | [] => []
  | [a] => [[a]]
  | [a, b] => [[a, b]]
  | a :: b :: c :: rest => [a, b, c] :: mkBatches rest

inductive BatchEv where
  | dispatch (id : Nat)
  | complete (id : Nat)
deriving DecidableEq

/-- Events produced by one batch under `await Promise.all(batch.map(...))`:
`batch.map` synchronously dispatches every item of the batch in insertion
order, then the items complete in a scheduler-chosen order `comps` (a
permutation of the batch) before `Promise.all` resolves. -/
def batchSeg (batch comps : List Nat) : List BatchEv :=
  batch.map BatchEv.dispatch ++ comps.map BatchEv.complete

/-- The event trace of the `for (const batch of batches) await Promise.all`
loop: batch segments in order, one per batch. -/
def runTrace : List (List Nat) → List (List Nat) → List BatchEv
  | [], _ => []
  | _, [] => []
  | b :: bs, c :: cs => batchSeg b c ++ runTrace bs cs

/-- A scheduler is valid when each batch's completion order is a permutation
of that batch. -/
def ValidSched (batches comps : List (List Nat)) : Prop :=
  List.Forall₂ (fun b c => List.Perm c b) batches comps

/-! ## Queue mutation and its gating (part_002 lines 718-731, 1035-1044, 1082-1089, 1130-1136) -/

/-- part_002 line 1132: the per-item remove button is disabled exactly when
that item's own status is `uploading`. -/
def removeItemDisabled (it : UploadItem) : Bool :=
  it.status == ItemStatus.uploading

/-- part_002 line 1084: the clear-all button is disabled exactly during a
bulk run. -/
def clearAllDisabled (s : UploadState) : Bool :=
  s.globalStatus == GlobalStatus.uploading

/-- part_002 line 1043: the add-URLs button is disabled when the text area is
blank or a bulk run is in progress. -/
def addUrlsDisabled (s : UploadState) (remoteUrls : String) : Bool :=
  (jsTrim remoteUrls == "") || (s.globalStatus == GlobalStatus.uploading)

/-- part_002 lines 718-723. -/
def removeItem (s : UploadState) (itemId : String) : UploadState :=
  { s with items := s.items.filter (fun it => !(it.id == itemId)) }

/-- part_002 lines 725-731. -/
def clearAll : UploadState :=
  { items := [], globalStatus := GlobalStatus.idle }

/-! ## Sequential bulk delete (VideoList.tsx lines 395-457) -/

inductive ProgStatus where
  | pending
  | deleting
  | deleted
  | errored (msg : String)
deriving DecidableEq

inductive DelEv where
  | deleting (id : String)
  | deleted (id : String)
  | failed (id : String)
  | delay (ms : Nat)
deriving DecidableEq

def setProg (m : List (String × ProgStatus)) (i : String) (st : ProgStatus) :
    List (String × ProgStatus) :=
  m.map (fun p => if p.1 == i then (p.1, st) else p)

/-- The `for (const videoId of ...)` loop of `handleBulkDeleteConfirm`:
mark the id `deleting`, attempt the deletion, mark it `deleted` (and drop it
from the video list) or `errored` with the caught message, then wait 300 ms
before the next id.  Returns the progress map, the surviving video list and
the event trace. -/
def bulkDeleteLoop :
    List String → (String → Except String Unit) → List (String × ProgStatus) →
    List String → List (String × ProgStatus) × List String × List DelEv
  | [], _, prog, vids => (prog, vids, [])
  | i :: rest, res, prog, vids =>
    let prog1 := setProg prog i ProgStatus.deleting
    match res i with
    | Except.ok _ =>
      let prog2 := setProg prog1 i ProgStatus.deleted
      let vids1 := vids.filter (fun v => !(v == i))
      let out := bulkDeleteLoop rest res prog2 vids1
      (out.1, out.2.1, [DelEv.deleting i, DelEv.deleted i, DelEv.delay 300] ++ out.2.2)
    | Except.error e =>
      let prog2 := setProg prog1 i (ProgStatus.errored e)
      let out := bulkDeleteLoop rest res prog2 vids
      (out.1, out.2.1, [DelEv.deleting i, DelEv.failed i, DelEv.delay 300] ++ out.2.2)

/-- VideoList.tsx lines 395-457: initialize every selected id to `pending`,
then run the sequential loop. -/
def handleBulkDeleteConfirm (ids : List String) (res : String → Except String Unit)
    (videos : List String) : List (String × ProgStatus) × List String × List DelEv :=
  bulkDeleteLoop ids res (ids.map (fun i => (i, ProgStatus.pending))) videos

/-! ## Concrete sample values used by counterexamples and witnesses -/

def sampleIdleItem : UploadItem :=
  { id := "item1", isFile := true, progress := none, status := ItemStatus.idle,
    error := none, videoId := none, name := "a.mp4" }

def sampleRunningState : UploadState :=
  { items := [sampleIdleItem], globalStatus := GlobalStatus.uploading }

def mkQueueItem (n : String) (st : ItemStatus) : UploadItem :=
  { id := n, isFile := true, progress := none, status := st,
    error := none, videoId := none, name := n }

/-- Four idle local-file items: batches [i1, i2, i3] and [i4]. -/
def sampleQueue4 : UploadState :=
  { items := [mkQueueItem "i1" ItemStatus.idle, mkQueueItem "i2" ItemStatus.idle,
              mkQueueItem "i3" ItemStatus.idle, mkQueueItem "i4" ItemStatus.idle],
    globalStatus := GlobalStatus.idle }

/-- Settlements where item i1's TUS transport terminally fails (retries
exhausted or a 4xx rejection) and every other session succeeds. -/
def sampleStallSettle (i : String) : ItemSettle :=
  if i == "i1" then localItemSettle (TusTerminal.failure "tus: upload failed")
  else localItemSettle (TusTerminal.success (some "vid"))

/-- A queue holding one already-successful item and one idle item. -/
def sampleMixedQueue : UploadState :=
  { items := [mkQueueItem "done" ItemStatus.success, mkQueueItem "new" ItemStatus.idle],
    globalStatus := GlobalStatus.idle }

/-- Deletion results where exactly id v2 fails. -/
def sampleDeleteResult (i : String) : Except String Unit :=
  if i == "v2" then Except.error "Failed to delete" else Except.ok ()

def sampleHexId : String := "aaaaaaaaaaaaaaaaaaaaaaaaaaaaaaaa"

def sampleLocation : String :=
  "https://upload.example.com/aaaaaaaaaaaaaaaaaaaaaaaaaaaaaaaa"

/-- The terminal progress status an id ends in, given its deletion result. -/
def delTerminal (res : String → Except String Unit) (i : String) : ProgStatus :=
  match res i with
  | Except.ok _ => ProgStatus.deleted
  | Except.error e => ProgStatus.errored e

/-- The three events one id contributes to the trace. -/
def delSeg (res : String → Except String Unit) (i : String) : List DelEv :=
  [DelEv.deleting i,
   (match res i with
    | Except.ok _ => DelEv.deleted i
    | Except.error _ => DelEv.failed i),
   DelEv.delay 300]

end StreamManager

namespace StreamManager

/-! ## Theorems -/

/-- C1: for every requested chunk size, including the default used when none
is requested, the chunk size computed at the start of
`TusUploadService.uploadFile` is at least 5,242,880 bytes and an exact
multiple of 262,144 bytes. -/
theorem chunkSize_min_and_aligned (r : Option Nat) :
    minChunkSize ≤ normalizeChunkSize r ∧ normalizeChunkSize r % chunkDivisor = 0 := by
  unfold normalizeChunkSize
  set c0 := requestedOrDefault r with hc0
  constructor
  · have hge : minChunkSize ≤ (if c0 < minChunkSize then minChunkSize else c0) := by
      split
      · exact Nat.le_refl _
      · omega
    have h20 : 20 ≤ ((if c0 < minChunkSize then minChunkSize else c0) + chunkDivisor / 2) / chunkDivisor := by
      rw [Nat.le_div_iff_mul_le (by decide : 0 < chunkDivisor)]
      have : (5242880 : Nat) ≤ (if c0 < minChunkSize then minChunkSize else c0) := hge
      simp only [chunkDivisor] at *
      omega
    calc minChunkSize = 20 * chunkDivisor := by decide
    _ ≤ (((if c0 < minChunkSize then minChunkSize else c0) + chunkDivisor / 2) / chunkDivisor) * chunkDivisor :=
        Nat.mul_le_mul_right _ h20
  · exact Nat.mul_mod_left _ _

/-- C5: the session's backoff schedule is the five-slot list
0 ms, 3 s, 5 s, 10 s, 20 s, so a session whose transport fails transiently
exactly 4 times and then succeeds completes successfully, while one that
fails 6 consecutive times exhausts the schedule and terminates in failure. -/
theorem retry_schedule_behavior :
    retryDelays = [0, 3000, 5000, 10000, 20000] ∧
    sessionCompletes 4 retryDelays = true ∧
    sessionCompletes 6 retryDelays = false := by
  refine ⟨rfl, ?_, ?_⟩ <;> decide

theorem uploadSingleItem_map (items : List UploadItem) (i : String) (o : ItemOutcome) :
    uploadSingleItem items i o =
      items.map (fun it => if it.id == i then finalizeItem o it else it) := by
  cases o <;>
  · simp only [uploadSingleItem, updateItem, List.map_map, finalizeItem]
    congr 1
    funext it
    by_cases h : it.id == i <;> simp [h, Function.comp, applyUploading]

/-- C4: when a local-file upload's TUS session resolves without a usable
video id, `handleLocalUpload` throws the distinct no-video-id error, and the
catch in `uploadSingleItem` leaves the driven item in the `error` state with
exactly that message, never in the `success` state. -/
theorem noVideoId_yields_error (r : Option String) (items : List UploadItem)
    (it : UploadItem) (hr : jsTruthy r = false) (hmem : it ∈ items) :
    localUploadOutcome r = ItemOutcome.fail noVideoIdMsg ∧
    applyError noVideoIdMsg (applyUploading it) ∈
      uploadSingleItem items it.id (localUploadOutcome r) ∧
    (applyError noVideoIdMsg (applyUploading it)).status = ItemStatus.error ∧
    (applyError noVideoIdMsg (applyUploading it)).error = some noVideoIdMsg ∧
    (applyError noVideoIdMsg (applyUploading it)).status ≠ ItemStatus.success := by
  have hout : localUploadOutcome r = ItemOutcome.fail noVideoIdMsg := by
    simp [localUploadOutcome, hr]
  refine ⟨hout, ?_, rfl, rfl, by simp [applyError]⟩
  rw [hout, uploadSingleItem_map]
  have := List.mem_map_of_mem (fun x => if x.id == it.id then
    finalizeItem (ItemOutcome.fail noVideoIdMsg) x else x) hmem
  simpa [finalizeItem] using this

/-- C4 witness at a concrete input: a null session video id leaves the
sample item in the error state with the distinct message. -/
theorem noVideoId_yields_error_witness :
    applyError noVideoIdMsg (applyUploading sampleIdleItem) ∈
      uploadSingleItem [sampleIdleItem] sampleIdleItem.id (localUploadOutcome none) ∧
    (applyError noVideoIdMsg (applyUploading sampleIdleItem)).status = ItemStatus.error := by
  have h := noVideoId_yields_error none [sampleIdleItem] sampleIdleItem
    (by decide) (by simp)
  exact ⟨h.2.1, h.2.2.1⟩

theorem bearer_beq_empty (t : String) : (("Bearer " ++ t) == "") = false := by
  rw [beq_eq_false_iff_ne]
  intro h
  obtain ⟨l⟩ := t
  rw [String.ext_iff] at h
  have h2 : ((String.mk ("Bearer ".data ++ l)).data : List Char) = "".data := h
  simp at h2

/-- C7: the protocol metadata built by `TusUploadService.uploadFile` holds
only the identifying fields name, filetype and (optionally) watermark; the
bearer credential, although supplied by the caller inside the metadata
options, is placed only in the transport Authorization header and never
appears in the protocol metadata. -/
theorem credential_only_in_headers (file : TusFile) (apiToken : String)
    (watermarkId : Option String) :
    lookupMeta (callerMetadata file apiToken watermarkId) "authorization" =
      some ("Bearer " ++ apiToken) ∧
    buildTusHeaders (callerMetadata file apiToken watermarkId) =
      [("Authorization", "Bearer " ++ apiToken)] ∧
    (buildTusMetadata file (callerMetadata file apiToken watermarkId)).all
      (fun p => (p.1 == "name") || (p.1 == "filetype") || (p.1 == "watermark")) = true ∧
    lookupMeta (buildTusMetadata file (callerMetadata file apiToken watermarkId))
      "authorization" = none := by
  have hbearer := bearer_beq_empty apiToken
  match watermarkId with
  | none =>
    refine ⟨rfl, ?_, rfl, rfl⟩
    have h1 : lookupMeta (callerMetadata file apiToken none) "authorization" =
        some ("Bearer " ++ apiToken) := rfl
    simp [buildTusHeaders, h1, hbearer]
  | some w =>
    by_cases hw : jsTrim w == ""
    · have hm : callerMetadata file apiToken (some w) =
          [("name", file.name), ("filename", file.name), ("filetype", file.mimeType),
           ("authorization", "Bearer " ++ apiToken)] := by
        simp [callerMetadata, hw]
      rw [hm]
      refine ⟨rfl, ?_, rfl, rfl⟩
      have h1 : lookupMeta
          [("name", file.name), ("filename", file.name), ("filetype", file.mimeType),
           ("authorization", "Bearer " ++ apiToken)] "authorization" =
          some ("Bearer " ++ apiToken) := rfl
      simp [buildTusHeaders, h1, hbearer]
    · have hwne : (w == "") = false := by
        rw [beq_eq_false_iff_ne]
        intro h
        apply hw
        subst h
        decide
      have hm : callerMetadata file apiToken (some w) =
          [("name", file.name), ("filename", file.name), ("filetype", file.mimeType),
           ("authorization", "Bearer " ++ apiToken), ("watermark", w)] := by
        simp [callerMetadata, hw]
      rw [hm]
      have hwm : lookupMeta
          [("name", file.name), ("filename", file.name), ("filetype", file.mimeType),
           ("authorization", "Bearer " ++ apiToken), ("watermark", w)] "watermark" =
          some w := rfl
      have hmeta : buildTusMetadata file
          [("name", file.name), ("filename", file.name), ("filetype", file.mimeType),
           ("authorization", "Bearer " ++ apiToken), ("watermark", w)] =
          [("name", file.name), ("filetype", file.mimeType), ("watermark", w)] := by
        simp [buildTusMetadata, hwm, hwne]
      have h1 : lookupMeta
          [("name", file.name), ("filename", file.name), ("filetype", file.mimeType),
           ("authorization", "Bearer " ++ apiToken), ("watermark", w)] "authorization" =
          some ("Bearer " ++ apiToken) := rfl
      refine ⟨rfl, ?_, ?_, ?_⟩
      · simp [buildTusHeaders, h1, hbearer]
      · rw [hmeta]
        rfl
      · rw [hmeta]
        rfl

/-- C9 counterexample: with a bulk run in progress (globalStatus is
`uploading`), the remove control of an idle queue item is enabled — its
disabled condition looks only at the item's own status — and invoking it
mutates the queue.  The claim that no queue mutation can be invoked while
`globalStatus` is running is therefore false on the code. -/
theorem remove_during_run_counterexample :
    sampleRunningState.globalStatus = GlobalStatus.uploading ∧
    sampleIdleItem ∈ sampleRunningState.items ∧
    removeItemDisabled sampleIdleItem = false ∧
    (removeItem sampleRunningState sampleIdleItem.id).items = [] := by
  refine ⟨rfl, by simp [sampleRunningState], rfl, by decide⟩

/-- C9 amended: clear-all and add-URLs are unavailable exactly while
`globalStatus` is `uploading`, but the per-item remove control is disabled
only while that item's own status is `uploading` (so an item that is not
currently uploading can be removed even during a run); each mutation is a
pure local-state operation — remove drops exactly the entries with the given
id and keeps every other item, clear-all resets the queue. -/
theorem queue_mutation_gating (s : UploadState) (it : UploadItem)
    (itemId : String) (urls : String) :
    (clearAllDisabled s = true ↔ s.globalStatus = GlobalStatus.uploading) ∧
    (s.globalStatus = GlobalStatus.uploading → addUrlsDisabled s urls = true) ∧
    (removeItemDisabled it = true ↔ it.status = ItemStatus.uploading) ∧
    (∀ it2 ∈ (removeItem s itemId).items, it2.id ≠ itemId) ∧
    (∀ it2 ∈ s.items, it2.id ≠ itemId → it2 ∈ (removeItem s itemId).items) ∧
    clearAll.items = [] ∧ clearAll.globalStatus = GlobalStatus.idle := by
  refine ⟨?_, ?_, ?_, ?_, ?_, rfl, rfl⟩
  · simp [clearAllDisabled]
  · intro h
    simp [addUrlsDisabled, h]
  · simp [removeItemDisabled]
  · intro it2 h2
    simp only [removeItem, List.mem_filter] at h2
    simpa using h2.2
  · intro it2 h2 hne
    simp [removeItem, List.mem_filter, h2, hne]

/-- C9 amended witness at concrete inputs: during a run the add-URLs control
is disabled, and removing one id keeps an item carrying a different id. -/
theorem queue_mutation_gating_witness :
    addUrlsDisabled sampleRunningState "http" = true ∧
    sampleIdleItem ∈ (removeItem sampleRunningState "other").items := by
  constructor
  · exact (queue_mutation_gating sampleRunningState sampleIdleItem "other" "http").2.1 rfl
  · exact (queue_mutation_gating sampleRunningState sampleIdleItem "other" "u").2.2.2.2.1
      sampleIdleItem (by simp [sampleRunningState]) (by decide)

/-- C6: a truthy stream-media-id response header always wins: it sets the
captured video id, and once the id is set (by any earlier response) the
Location header is never parsed; the Location trailing segment is parsed
only while no id has been captured, and the parse accepts the segment only
when it is exactly a 32-character lowercase-hexadecimal token at the end of
the location, preceded by a slash. -/
theorem videoId_capture (s : SessionState) (r : TusResponse) :
    (jsTruthy r.mediaId = true → (onAfterResponse s r).videoId = r.mediaId) ∧
    (jsTruthy r.mediaId = false → jsTruthy s.videoId = true →
      (onAfterResponse s r).videoId = s.videoId) ∧
    (∀ loc : String, jsTruthy r.mediaId = false → jsTruthy s.videoId = false →
      r.location = some loc → (loc == "") = false →
      (onAfterResponse s r).videoId =
        (match extractLocationId loc with
         | some v => some v
         | none => s.videoId)) ∧
    (∀ loc id : String, extractLocationId loc = some id →
      id.length = 32 ∧ id.data.all isLowerHexDigit = true ∧
      ∃ pre : List Char, loc.data = pre ++ '/' :: id.data) := by
  refine ⟨?_, ?_, ?_, ?_⟩
  · intro hm
    cases hloc : r.location with
    | none => simp [onAfterResponse, hm, hloc]
    | some loc =>
      by_cases he : loc == "" <;> simp [onAfterResponse, hm, hloc, he]
  · intro hm hs
    cases hloc : r.location with
    | none => simp [onAfterResponse, hm, hloc]
    | some loc =>
      by_cases he : loc == "" <;> simp [onAfterResponse, hm, hs, hloc, he]
  · intro loc hm hs hloc he
    rw [onAfterResponse]
    simp only [hm, Bool.false_eq_true, if_neg, reduceIte, hloc]
    rw [if_neg (by simp [he])]
    simp only [hs, Bool.false_eq_true, reduceIte]
    cases hex : extractLocationId loc <;> simp [hex]
  · intro loc id h
    rw [extractLocationId] at h
    by_cases h33 : 33 ≤ loc.data.length
    · rw [if_pos h33] at h
      by_cases hc : (loc.data[loc.data.length - 33]? == some '/') &&
          (loc.data.drop (loc.data.length - 32)).all isLowerHexDigit
      · rw [if_pos hc] at h
        obtain ⟨hslash, hhex⟩ := Bool.and_eq_true_iff.mp hc
        rw [beq_iff_eq] at hslash
        injection h with h
        subst h
        refine ⟨?_, ?_, ?_⟩
        · show (loc.data.drop (loc.data.length - 32)).length = 32
          rw [List.length_drop]
          omega
        · exact hhex
        · refine ⟨loc.data.take (loc.data.length - 33), ?_⟩
          obtain ⟨hlt, hget⟩ := List.getElem?_eq_some.mp hslash
          have hidx : loc.data.length - 33 + 1 = loc.data.length - 32 := by omega
          have hdrop : loc.data.drop (loc.data.length - 33) =
              '/' :: loc.data.drop (loc.data.length - 32) := by
            rw [List.drop_eq_getElem_cons hlt, hget, hidx]
          conv_lhs => rw [← List.take_append_drop (loc.data.length - 33) loc.data]
          rw [hdrop]
      · rw [if_neg hc] at h
        exact absurd h (by simp)
    · rw [if_neg h33] at h
      exact absurd h (by simp)

/-- C6 witness at concrete inputs: with no media-id header observed, the
32-hex trailing segment of the location is captured; a truthy media-id
header takes precedence over the same location. -/
theorem videoId_capture_witness :
    (onAfterResponse ⟨none, none⟩ ⟨none, some sampleLocation⟩).videoId =
      some sampleHexId ∧
    (onAfterResponse ⟨none, none⟩ ⟨some "mid", some sampleLocation⟩).videoId =
      some "mid" := by
  constructor
  · have h := (videoId_capture ⟨none, none⟩ ⟨none, some sampleLocation⟩).2.2.1
      sampleLocation (by decide) (by decide) rfl (by decide)
    rw [h]
    decide
  · exact (videoId_capture ⟨none, none⟩ ⟨some "mid", some sampleLocation⟩).1 (by decide)

theorem setProg_of_forall_ne (m : List (String × ProgStatus)) (i : String)
    (st : ProgStatus) (h : ∀ p ∈ m, p.1 ≠ i) : setProg m i st = m := by
  unfold setProg
  conv_rhs => rw [← List.map_id m]
  refine List.map_congr_left (fun p hp => ?_)
  rw [if_neg]
  · rfl
  · simp [h p hp]

theorem bulkDeleteLoop_prog_cons (ids : List String) (res : String → Except String Unit)
    (e : String × ProgStatus) (m : List (String × ProgStatus)) (vids : List String)
    (he : e.1 ∉ ids) :
    (bulkDeleteLoop ids res (e :: m) vids).1 = e :: (bulkDeleteLoop ids res m vids).1 := by
  induction ids generalizing m vids with
  | nil => rfl
  | cons i rest ih =>
    have hne : (e.1 == i) = false := by
      rw [beq_eq_false_iff_ne]
      exact fun h => he (h ▸ List.mem_cons_self i rest)
    have htail : e.1 ∉ rest := fun h => he (List.mem_cons_of_mem i h)
    cases hres : res i with
    | ok u =>
      simp only [bulkDeleteLoop, hres, setProg, List.map_cons, hne, Bool.false_eq_true,
        reduceIte]
      exact ih _ _ htail
    | error msg =>
      simp only [bulkDeleteLoop, hres, setProg, List.map_cons, hne, Bool.false_eq_true,
        reduceIte]
      exact ih _ _ htail

theorem bulkDeleteLoop_trace (ids : List String) (res : String → Except String Unit)
    (prog : List (String × ProgStatus)) (vids : List String) :
    (bulkDeleteLoop ids res prog vids).2.2 = (ids.map (delSeg res)).flatten := by
  induction ids generalizing prog vids with
  | nil => rfl
  | cons i rest ih =>
    cases hres : res i <;> simp [bulkDeleteLoop, hres, delSeg, ih]

/-- C8: bulk delete processes the selected ids strictly one at a time in
selection order — the event trace is the concatenation, in selection order,
of each id's segment (mark deleting, then its terminal event, then the fixed
300 ms delay) — and the final progress map gives every selected id its own
terminal status as determined by its own deletion result, so a failing id is
marked errored while every other id is still attempted and marked from its
own result. -/
theorem setProg_cons (e : String × ProgStatus) (m : List (String × ProgStatus))
    (i : String) (st : ProgStatus) :
    setProg (e :: m) i st = (if e.1 == i then (e.1, st) else e) :: setProg m i st := rfl

theorem bulkDeleteLoop_prog_pending (ids : List String)
    (res : String → Except String Unit) (vids : List String) (h : ids.Nodup) :
    (bulkDeleteLoop ids res (ids.map (fun j => (j, ProgStatus.pending))) vids).1 =
      ids.map (fun i => (i, delTerminal res i)) := by
  induction ids generalizing vids with
  | nil => rfl
  | cons i rest ih =>
    obtain ⟨hni, hrest⟩ := List.nodup_cons.mp h
    have hmapne : ∀ p ∈ rest.map (fun j => (j, ProgStatus.pending)), p.1 ≠ i := by
      intro p hp
      obtain ⟨j, hj, rfl⟩ := List.mem_map.mp hp
      exact fun hji => hni (hji ▸ hj)
    have hset : ∀ st, setProg (rest.map (fun j => (j, ProgStatus.pending))) i st =
        rest.map (fun j => (j, ProgStatus.pending)) :=
      fun st => setProg_of_forall_ne _ _ _ hmapne
    cases hres : res i with
    | ok u =>
      simp only [List.map_cons, bulkDeleteLoop, hres, setProg_cons, beq_self_eq_true,
        reduceIte, hset]
      rw [bulkDeleteLoop_prog_cons _ _ _ _ _ hni, ih _ hrest]
      simp [delTerminal, hres]
    | error msg =>
      simp only [List.map_cons, bulkDeleteLoop, hres, setProg_cons, beq_self_eq_true,
        reduceIte, hset]
      rw [bulkDeleteLoop_prog_cons _ _ _ _ _ hni, ih _ hrest]
      simp [delTerminal, hres]

/-- C8: bulk delete processes the selected ids strictly one at a time in
selection order — the event trace is the concatenation, in selection order,
of each id's segment (mark deleting, then its terminal event, then the fixed
300 ms delay) — and the final progress map gives every selected id its own
terminal status as determined by its own deletion result, so a failing id is
marked errored while every other selected id is still attempted and marked
from its own result. -/
theorem bulk_delete_sequential (ids : List String) (res : String → Except String Unit)
    (videos : List String) (h : ids.Nodup) :
    (handleBulkDeleteConfirm ids res videos).1 =
      ids.map (fun i => (i, delTerminal res i)) ∧
    (handleBulkDeleteConfirm ids res videos).2.2 = (ids.map (delSeg res)).flatten :=
  ⟨bulkDeleteLoop_prog_pending ids res videos h, bulkDeleteLoop_trace ids res _ videos⟩

/-- C8 witness: deleting three selected ids where the second fails yields a
final tally of two deleted and one errored, with the third id still
attempted, and the trace is the three 300 ms-separated segments in order. -/
theorem bulk_delete_sequential_witness :
    (handleBulkDeleteConfirm ["v1", "v2", "v3"] sampleDeleteResult []).1 =
      [("v1", ProgStatus.deleted), ("v2", ProgStatus.errored "Failed to delete"),
       ("v3", ProgStatus.deleted)] ∧
    (handleBulkDeleteConfirm ["v1", "v2", "v3"] sampleDeleteResult []).1.countP
      (fun p => p.2 == ProgStatus.deleted) = 2 ∧
    (handleBulkDeleteConfirm ["v1", "v2", "v3"] sampleDeleteResult []).2.2 =
      [DelEv.deleting "v1", DelEv.deleted "v1", DelEv.delay 300,
       DelEv.deleting "v2", DelEv.failed "v2", DelEv.delay 300,
       DelEv.deleting "v3", DelEv.deleted "v3", DelEv.delay 300] := by
  have h := bulk_delete_sequential ["v1", "v2", "v3"] sampleDeleteResult [] (by decide)
  refine ⟨?_, ?_, ?_⟩
  · rw [h.1]
    decide
  · rw [h.1]
    decide
  · rw [h.2]
    decide

theorem finalizeItem_id (o : ItemOutcome) (it : UploadItem) :
    (finalizeItem o it).id = it.id := by
  cases o <;> rfl

theorem foldl_uploadSingleItem (outcome : String → ItemOutcome) (l : List UploadItem)
    (items : List UploadItem) :
    l.foldl (fun acc it => uploadSingleItem acc it.id (outcome it.id)) items =
      items.map (runSeq outcome l) := by
  induction l generalizing items with
  | nil =>
    have h0 : items.map (runSeq outcome []) = items.map id := rfl
    rw [h0, List.map_id]
    rfl
  | cons d rest ih =>
    rw [List.foldl_cons, uploadSingleItem_map, ih, List.map_map]
    rfl

theorem runSeq_id (outcome : String → ItemOutcome) (l : List UploadItem)
    (it : UploadItem) : (runSeq outcome l it).id = it.id := by
  induction l generalizing it with
  | nil => rfl
  | cons d rest ih =>
    show (runSeq outcome rest (if it.id == d.id then
      finalizeItem (outcome d.id) it else it)).id = it.id
    rw [ih]
    split
    · exact finalizeItem_id _ _
    · rfl

theorem runSeq_of_not_mem (outcome : String → ItemOutcome) (l : List UploadItem)
    (it : UploadItem) (h : it.id ∉ l.map (fun d => d.id)) :
    runSeq outcome l it = it := by
  induction l generalizing it with
  | nil => rfl
  | cons d rest ih =>
    have hne : (it.id == d.id) = false := by
      rw [beq_eq_false_iff_ne]
      intro he
      exact h (by simp [he])
    show runSeq outcome rest (if it.id == d.id then
      finalizeItem (outcome d.id) it else it) = it
    rw [hne]
    simp only [Bool.false_eq_true, reduceIte]
    exact ih it (fun hm => h (by simp at hm ⊢; exact Or.inr hm))

theorem runSeq_of_mem (outcome : String → ItemOutcome) (l : List UploadItem)
    (it : UploadItem) (hnd : (l.map (fun d => d.id)).Nodup) (hmem : it ∈ l) :
    runSeq outcome l it = finalizeItem (outcome it.id) it := by
  induction l generalizing it with
  | nil => cases hmem
  | cons d rest ih =>
    rw [List.map_cons, List.nodup_cons] at hnd
    obtain ⟨hdn, hrestnd⟩ := hnd
    rcases List.mem_cons.mp hmem with heq | hmemr
    · subst heq
      show runSeq outcome rest (if it.id == it.id then
        finalizeItem (outcome it.id) it else it) = finalizeItem (outcome it.id) it
      rw [beq_self_eq_true]
      simp only [reduceIte]
      apply runSeq_of_not_mem
      rw [finalizeItem_id]
      exact hdn
    · have hne : (it.id == d.id) = false := by
        rw [beq_eq_false_iff_ne]
        intro he
        exact hdn (he ▸ (List.mem_map_of_mem (fun x => x.id) hmemr))
      show runSeq outcome rest (if it.id == d.id then
        finalizeItem (outcome d.id) it else it) = finalizeItem (outcome it.id) it
      rw [hne]
      simp only [Bool.false_eq_true, reduceIte]
      exact ih it hrestnd hmemr

theorem startBulkUpload_items (s : UploadState) (outcome : String → ItemOutcome)
    (hnd : (s.items.map (fun it => it.id)).Nodup)
    (hne : (s.items.filter (fun it => it.status == ItemStatus.idle)).isEmpty = false) :
    (startBulkUpload s outcome).items =
      s.items.map (fun it => if it.status == ItemStatus.idle
        then finalizeItem (outcome it.id) it else it) := by
  rw [startBulkUpload]
  simp only [hne, Bool.false_eq_true, reduceIte]
  rw [foldl_uploadSingleItem]
  refine List.map_congr_left (fun it hit => ?_)
  by_cases hidle : (it.status == ItemStatus.idle) = true
  · rw [if_pos hidle]
    apply runSeq_of_mem
    · exact List.Nodup.sublist (List.Sublist.map _ (List.filter_sublist s.items)) hnd
    · exact List.mem_filter.mpr ⟨hit, hidle⟩
  · rw [if_neg hidle]
    apply runSeq_of_not_mem
    intro hm
    obtain ⟨d, hd, hdid⟩ := List.mem_map.mp hm
    have hdmem := List.mem_filter.mp hd
    have : d = it := List.inj_on_of_nodup_map hnd hdmem.1 hit hdid
    exact hidle (this ▸ hdmem.2)

/-- C10: a bulk run dispatches exactly the items that are idle when the run
starts — each such item is replaced by the outcome of its own dispatch —
while every item whose status is success or error at run start is never
dispatched and is carried into the post-run state entirely unchanged
(status, progress, error and videoId included); an all-terminal queue makes
the run a no-op. -/
theorem run_dispatches_only_idle (s : UploadState) (outcome : String → ItemOutcome)
    (hnd : (s.items.map (fun it => it.id)).Nodup) :
    ((s.items.filter (fun it => it.status == ItemStatus.idle)).isEmpty = true →
      startBulkUpload s outcome = s) ∧
    ((s.items.filter (fun it => it.status == ItemStatus.idle)).isEmpty = false →
      (startBulkUpload s outcome).items =
        s.items.map (fun it => if it.status == ItemStatus.idle
          then finalizeItem (outcome it.id) it else it)) ∧
    (∀ it ∈ s.items, it.status = ItemStatus.success ∨ it.status = ItemStatus.error →
      it ∈ (startBulkUpload s outcome).items) := by
  refine ⟨?_, startBulkUpload_items s outcome hnd, ?_⟩
  · intro he
    rw [startBulkUpload]
    simp [he]
  · intro it hit hterm
    by_cases hemp : (s.items.filter (fun it => it.status == ItemStatus.idle)).isEmpty
    · rw [startBulkUpload]
      simp only [hemp, reduceIte]
      exact hit
    · rw [startBulkUpload_items s outcome hnd (by simpa using hemp)]
      have himg := List.mem_map_of_mem (fun it => if it.status == ItemStatus.idle
        then finalizeItem (outcome it.id) it else it) hit
      have hni : (it.status == ItemStatus.idle) = false := by
        rcases hterm with h | h <;> simp [h]
      simpa [hni] using himg

/-- C10 witness: in a queue with one already-successful item and one idle
item, the run leaves the successful item untouched and dispatches the idle
one. -/
theorem run_dispatches_only_idle_witness :
    mkQueueItem "done" ItemStatus.success ∈
      (startBulkUpload sampleMixedQueue (fun _ => ItemOutcome.ok "v")).items ∧
    (startBulkUpload sampleMixedQueue (fun _ => ItemOutcome.ok "v")).items =
      [mkQueueItem "done" ItemStatus.success,
       finalizeItem (ItemOutcome.ok "v") (mkQueueItem "new" ItemStatus.idle)] := by
  constructor
  · exact (run_dispatches_only_idle sampleMixedQueue (fun _ => ItemOutcome.ok "v")
      (by decide)).2.2 (mkQueueItem "done" ItemStatus.success)
      (by simp [sampleMixedQueue]) (Or.inl rfl)
  · rw [(run_dispatches_only_idle sampleMixedQueue (fun _ => ItemOutcome.ok "v")
      (by decide)).2.1 (by decide)]
    decide

/-- C3, evaluated at the failing input: with four queued local-file items
(batches [i1, i2, i3] and [i4]) where item i1's TUS transport terminally
fails, the bulk `onError` rethrow (part_002 line 826) runs before the
`reject` at tusUpload.ts line 79, so i1's session promise never settles and
its item task stalls: i1 stays `uploading` with no error ever recorded, its
settled siblings i2 and i3 do succeed, the second batch's item i4 is never
dispatched (still `idle`), and `globalStatus` remains `uploading` — it
never reaches `completed`, contradicting the claim that every per-item
error is caught inside the run. -/
theorem bulk_stall_on_transport_failure :
    localItemSettle (TusTerminal.failure "tus: upload failed") = ItemSettle.stalled ∧
    (startBulkUploadFull sampleQueue4 sampleStallSettle).globalStatus =
      GlobalStatus.uploading ∧
    (startBulkUploadFull sampleQueue4 sampleStallSettle).globalStatus ≠
      GlobalStatus.completed ∧
    (startBulkUploadFull sampleQueue4 sampleStallSettle).items.map
      (fun it => (it.id, it.status)) =
      [("i1", ItemStatus.uploading), ("i2", ItemStatus.success),
       ("i3", ItemStatus.success), ("i4", ItemStatus.idle)] := by
  refine ⟨rfl, ?_, ?_, ?_⟩ <;> decide

theorem mkBatches_flatten (l : List Nat) : (mkBatches l).flatten = l :=
  match l with
  | [] => rfl
  | [_] => rfl
  | [_, _] => rfl
  | a :: b :: c :: rest => by
    show ([a, b, c] :: mkBatches rest).flatten = a :: b :: c :: rest
    rw [List.flatten_cons, mkBatches_flatten rest]
    rfl

theorem mkBatches_mem_length (l : List Nat) (b : List Nat) (h : b ∈ mkBatches l) :
    1 ≤ b.length ∧ b.length ≤ 3 :=
  match l, h with
  | [a], h => by
    rw [show mkBatches [a] = [[a]] from rfl, List.mem_singleton] at h
    subst h
    exact ⟨by simp, by simp⟩
  | [a, a2], h => by
    rw [show mkBatches [a, a2] = [[a, a2]] from rfl, List.mem_singleton] at h
    subst h
    exact ⟨by simp, by simp⟩
  | a :: a2 :: a3 :: rest, h => by
    rw [show mkBatches (a :: a2 :: a3 :: rest) = [a, a2, a3] :: mkBatches rest from rfl,
      List.mem_cons] at h
    rcases h with rfl | hm
    · exact ⟨by simp, by simp⟩
    · exact mkBatches_mem_length rest b hm

theorem mkBatches_ne_nil (l : List Nat) (h : l ≠ []) : mkBatches l ≠ [] :=
  match l, h with
  | [_], _ => by simp [mkBatches]
  | [_, _], _ => by simp [mkBatches]
  | _ :: _ :: _ :: _, _ => by simp [mkBatches]

theorem mkBatches_dropLast_length (l : List Nat) (b : List Nat)
    (h : b ∈ (mkBatches l).dropLast) : b.length = 3 :=
  match l, h with
  | [], h => by simp [mkBatches] at h
  | [_], h => by simp [mkBatches] at h
  | [_, _], h => by simp [mkBatches] at h
  | [_, _, _], h => by simp [mkBatches] at h
  | a :: a2 :: a3 :: r :: rs, h => by
    rw [show mkBatches (a :: a2 :: a3 :: r :: rs) =
      [a, a2, a3] :: mkBatches (r :: rs) from rfl] at h
    obtain ⟨m, ms, hm⟩ : ∃ m ms, mkBatches (r :: rs) = m :: ms := by
      cases hmk : mkBatches (r :: rs) with
      | nil => exact absurd hmk (mkBatches_ne_nil _ (by simp))
      | cons m ms => exact ⟨m, ms, rfl⟩
    rw [hm, List.dropLast_cons₂, List.mem_cons, ← hm] at h
    rcases h with rfl | hmem
    · rfl
    · exact mkBatches_dropLast_length (r :: rs) b hmem

theorem runTrace_append (bs cs bs2 cs2 : List (List Nat)) (h : bs.length = cs.length) :
    runTrace (bs ++ bs2) (cs ++ cs2) = runTrace bs cs ++ runTrace bs2 cs2 := by
  induction bs generalizing cs with
  | nil =>
    cases cs with
    | nil => simp [runTrace]
    | cons c cst => simp at h
  | cons b bst ih =>
    cases cs with
    | nil => simp at h
    | cons c cst =>
      rw [List.cons_append, List.cons_append]
      rw [show runTrace (b :: (bst ++ bs2)) (c :: (cst ++ cs2)) =
        batchSeg b c ++ runTrace (bst ++ bs2) (cst ++ cs2) from rfl]
      rw [show runTrace (b :: bst) (c :: cst) =
        batchSeg b c ++ runTrace bst cst from rfl]
      rw [ih cst (by simpa using h), List.append_assoc]

theorem dispatch_mem_runTrace (bs cs : List (List Nat)) (x : Nat)
    (h : BatchEv.dispatch x ∈ runTrace bs cs) : x ∈ bs.flatten := by
  induction bs generalizing cs with
  | nil => simp [runTrace] at h
  | cons b bst ih =>
    cases cs with
    | nil => simp [runTrace] at h
    | cons c cst =>
      simp only [runTrace, batchSeg, List.append_assoc, List.mem_append] at h
      rw [List.flatten_cons, List.mem_append]
      rcases h with h | h | h
      · obtain ⟨a, ha, he⟩ := List.mem_map.mp h
        cases he
        exact Or.inl ha
      · obtain ⟨a, _, he⟩ := List.mem_map.mp h
        cases he
      · exact Or.inr (ih cst h)

theorem complete_mem_runTrace (bs cs : List (List Nat)) (y : Nat)
    (h : BatchEv.complete y ∈ runTrace bs cs) : y ∈ cs.flatten := by
  induction bs generalizing cs with
  | nil => simp [runTrace] at h
  | cons b bst ih =>
    cases cs with
    | nil => simp [runTrace] at h
    | cons c cst =>
      simp only [runTrace, batchSeg, List.append_assoc, List.mem_append] at h
      rw [List.flatten_cons, List.mem_append]
      rcases h with h | h | h
      · obtain ⟨a, _, he⟩ := List.mem_map.mp h
        cases he
      · obtain ⟨a, ha, he⟩ := List.mem_map.mp h
        cases he
        exact Or.inl ha
      · exact Or.inr (ih cst h)

theorem validSched_flatten_sub (bs cs : List (List Nat)) (h : ValidSched bs cs)
    (y : Nat) (hy : y ∈ cs.flatten) : y ∈ bs.flatten := by
  induction h with
  | nil => simp at hy
  | cons hbc htail ih =>
    rw [List.flatten_cons, List.mem_append] at hy ⊢
    rcases hy with h1 | h2
    · exact Or.inl (hbc.mem_iff.mp h1)
    · exact Or.inr (ih h2)

theorem before_in_append (A B : List BatchEv) (u v : BatchEv) (i j : Nat)
    (hu : u ∉ A) (hv : v ∉ B)
    (hiu : (A ++ B)[i]? = some u) (hjv : (A ++ B)[j]? = some v) : j < i := by
  have hi : A.length ≤ i := by
    by_contra hlt
    push_neg at hlt
    rw [List.getElem?_append_left hlt] at hiu
    obtain ⟨h1, h2⟩ := List.getElem?_eq_some.mp hiu
    exact hu (h2 ▸ List.getElem_mem h1)
  have hj : j < A.length := by
    by_contra hge
    push_neg at hge
    rw [List.getElem?_append_right hge] at hjv
    obtain ⟨h1, h2⟩ := List.getElem?_eq_some.mp hjv
    exact hv (h2 ▸ List.getElem_mem h1)
  omega

/-- C2: the run partitions the dispatched items, in insertion order, into
consecutive batches of size at most 3 with every batch before the last of
size exactly 3 (7 items give sizes [3, 3, 1]), and in the run's event trace
— for any scheduler-chosen completion orders within the batches — no item of
a later batch is dispatched before every item of the preceding batch has
completed. -/
theorem bulk_batches_barrier :
    (∀ l : List Nat, (mkBatches l).flatten = l) ∧
    (∀ (l b : List Nat), b ∈ mkBatches l → 1 ≤ b.length ∧ b.length ≤ 3) ∧
    (∀ (l b : List Nat), b ∈ (mkBatches l).dropLast → b.length = 3) ∧
    (mkBatches [1, 2, 3, 4, 5, 6, 7]).map List.length = [3, 3, 1] ∧
    (∀ (l : List Nat) (comps pre post : List (List Nat)) (b1 b2 : List Nat)
      (x y i j : Nat),
      l.Nodup → ValidSched (mkBatches l) comps →
      mkBatches l = pre ++ b1 :: b2 :: post →
      x ∈ b2 → y ∈ b1 →
      (runTrace (mkBatches l) comps)[i]? = some (BatchEv.dispatch x) →
      (runTrace (mkBatches l) comps)[j]? = some (BatchEv.complete y) →
      j < i) := by
  refine ⟨mkBatches_flatten, mkBatches_mem_length, mkBatches_dropLast_length, rfl, ?_⟩
  intro l comps pre post b1 b2 x y i j hnd hv hsplit hx hy hi hj
  have hlen : (mkBatches l).length = comps.length := hv.length_eq
  have hnodupf : (mkBatches l).flatten.Nodup := by
    rw [mkBatches_flatten]
    exact hnd
  set n := pre.length + 1 with hn
  have htake : (mkBatches l).take n = pre ++ [b1] := by
    rw [hsplit, List.take_append_eq_append_take]
    have h1 : pre.take n = pre := List.take_of_length_le (by omega)
    have h2 : n - pre.length = 1 := by omega
    rw [h1, h2]
    rfl
  have hdrop : (mkBatches l).drop n = b2 :: post := by
    rw [hsplit, List.drop_append_eq_append_drop]
    have h1 : pre.drop n = [] := List.drop_eq_nil_of_le (by omega)
    have h2 : n - pre.length = 1 := by omega
    rw [h1, h2]
    rfl
  have hdisj : ((mkBatches l).take n).flatten.Disjoint ((mkBatches l).drop n).flatten := by
    have := hnodupf
    rw [← List.take_append_drop n (mkBatches l), List.flatten_append] at this
    exact (List.nodup_append.mp this).2.2
  have hyf : y ∈ ((mkBatches l).take n).flatten := by
    rw [htake, List.flatten_append, List.mem_append]
    exact Or.inr (by simpa using hy)
  have hxf : x ∈ ((mkBatches l).drop n).flatten := by
    rw [hdrop, List.flatten_cons, List.mem_append]
    exact Or.inl hx
  have htr : runTrace (mkBatches l) comps =
      runTrace ((mkBatches l).take n) (comps.take n) ++
        runTrace ((mkBatches l).drop n) (comps.drop n) := by
    conv_lhs => rw [← List.take_append_drop n (mkBatches l),
      ← List.take_append_drop n comps]
    exact runTrace_append _ _ _ _ (by simp [hlen])
  rw [htr] at hi hj
  refine before_in_append _ _ _ _ i j ?_ ?_ hi hj
  · intro hmem
    exact hdisj (dispatch_mem_runTrace _ _ x hmem) hxf
  · intro hmem
    have hydrop : y ∈ ((mkBatches l).drop n).flatten :=
      validSched_flatten_sub _ _ (List.forall₂_drop n hv) y
        (complete_mem_runTrace _ _ y hmem)
    exact hdisj hyf hydrop

/-- C2 witness: seven items form batches [1,2,3], [4,5,6], [7]; with a
scheduler completing batch 1 in reverse order, the dispatch of item 4 (batch
2) sits at trace index 6, after the completion of item 1 (batch 1) at index
5. -/
theorem bulk_batches_barrier_witness :
    mkBatches [1, 2, 3, 4, 5, 6, 7] = [[1, 2, 3], [4, 5, 6], [7]] ∧
    (runTrace (mkBatches [1, 2, 3, 4, 5, 6, 7]) [[3, 2, 1], [6, 5, 4], [7]])[6]? =
      some (BatchEv.dispatch 4) ∧
    (runTrace (mkBatches [1, 2, 3, 4, 5, 6, 7]) [[3, 2, 1], [6, 5, 4], [7]])[5]? =
      some (BatchEv.complete 1) ∧
    5 < 6 := by
  refine ⟨rfl, rfl, rfl, ?_⟩
  have hsched : ValidSched (mkBatches [1, 2, 3, 4, 5, 6, 7])
      [[3, 2, 1], [6, 5, 4], [7]] := by
    refine List.Forall₂.cons (by decide) (List.Forall₂.cons (by decide)
      (List.Forall₂.cons (by decide) List.Forall₂.nil))
  exact bulk_batches_barrier.2.2.2.2 [1, 2, 3, 4, 5, 6, 7] [[3, 2, 1], [6, 5, 4], [7]]
    [] [[7]] [1, 2, 3] [4, 5, 6] 4 1 6 5 (by decide) hsched rfl (by decide)
    (by decide) rfl rfl

end StreamManager
